import Mathlib

/-
Verification of the mcpify capture-to-tool pipeline.

Shallow embedding of the Go sources:
  internal/capture/proxy.go   (EndpointCapture: header filtering, naming, dedup record)
  internal/grouping/analyzer.go (LLMGrouper.GroupToolsInConfig) and the config package
  internal/server/server.go   (MCPServer: tool registry, per-endpoint dispatch)
  the grouped server file     (GroupedMCPServer: register, selectTool, group dispatch)

Conventions: Go maps are modelled as association lists (List (String × _));
Go time.Time is modelled as Nat; network and LLM interactions are abstracted
by explicit outcome values fed to the embedded control flow.
-/

namespace Mcpify

/-! ### String helpers modelling Go's strings package -/

/-- Model of Go `strings.Trim(s, "/")` on the character list: drop `'/'`
from both ends. -/
def trimSlash (l : List Char) : List Char :=
  ((l.dropWhile (· = '/')).reverse.dropWhile (· = '/')).reverse

/-- Model of Go `strings.ReplaceAll(s, "/", "_")`. -/
def replSlash (l : List Char) : List Char :=
  l.map (fun c => if c = '/' then '_' else c)

/-- Model of Go `strings.Index(s, "?")`: index of the first question mark,
`none` when absent. -/
def idxOfQm : List Char → Option Nat
  | [] => none
  | c :: cs => if c = '?' then some 0 else (idxOfQm cs).map (· + 1)

/-- Model of Go `strings.ToLower`: lowercase every character. -/
def lowerStr (s : String) : String := String.mk (s.data.map Char.toLower)

/-- Model of Go `strings.TrimSpace`: drop whitespace from both ends. -/
def trimSpace (s : String) : String :=
  String.mk (((s.data.dropWhile Char.isWhitespace).reverse.dropWhile Char.isWhitespace).reverse)

/-- Model of Go `strings.EqualFold` (restricted to ASCII case folding, which
covers every string the program compares). -/
def eqFold (a b : String) : Bool := lowerStr a == lowerStr b

/-- Model of Go `strings.Contains(s, sub)`. -/
def containsStr (s sub : String) : Bool := decide (sub.data <:+: s.data)

/-! ### internal/capture/proxy.go -/

/-- The deny-list `sensitive` of proxy.go (`filterSensitiveHeaders` /
`extractHeaders`). -/
def sensitiveList : List String := ["authorization", "cookie", "x-api-key", "x-auth-token"]

/-- The inner loop of `filterSensitiveHeaders`/`extractHeaders`: does the key
match some deny-list entry under `strings.EqualFold`? -/
def isSensitiveKey (k : String) : Bool := sensitiveList.any (fun s => eqFold k s)

/-- `EndpointCapture.filterSensitiveHeaders`: keep exactly the
non-sensitive entries, values untouched. -/
def filterSensitiveHeaders (headers : List (String × String)) : List (String × String) :=
  headers.filter (fun kv => !(isSensitiveKey kv.1))

/-- `EndpointCapture.extractHeaders`: convert an `http.Header`
(multi-valued map, modelled as an association list of value lists) to a
single-valued map, skipping sensitive keys and taking `values[0]` of each
remaining entry. -/
def extractHeaders (httpHeaders : List (String × List String)) : List (String × String) :=
  httpHeaders.filterMap (fun kv =>
    match kv.2 with
    | [] => none
    | v :: _ => if isSensitiveKey kv.1 then none else some (kv.1, v))

/-- The `safePath` computation of `EndpointCapture.generateToolName`, in the
source's order: trim slashes, replace `/`→`_`, substitute `root` for the
empty path, then strip from the first `?` only when its index is positive
(`queryPos > 0`). -/
def safePathCode (path : List Char) : List Char :=
  let s1 := replSlash (trimSlash path)
  let s2 := if s1 = [] then "root".data else s1
  match idxOfQm s2 with
  | some q => if 0 < q then s2.take q else s2
  | none => s2

/-- `EndpointCapture.generateToolName`: deterministic fallback tool name. -/
def generateToolName (method path : String) : String :=
  lowerStr method ++ "_" ++ String.mk (safePathCode path.data)

/-- The spec's description of the fallback name (§6: "lowercase method +
path with `/`→`_`, trimmed, query string stripped, empty path → root"),
read as the listed sequence of transformations: the query string is always
stripped, and the empty-path substitution comes last. Kept separate from
`safePathCode` to compare the two. -/
def safePathSpec (path : List Char) : List Char :=
  let s1 := replSlash (trimSlash path)
  let s2 := match idxOfQm s1 with
    | some q => s1.take q
    | none => s1
  if s2 = [] then "root".data else s2

/-- The fallback tool name as the spec sentence describes it. -/
def specToolName (method path : String) : String :=
  lowerStr method ++ "_" ++ String.mk (safePathSpec path.data)

/-- Outcome of the naming-classifier call in
`EndpointCapture.GenerateToolNameWithLLM`: the chat-completion request
either returns an error or a content string. -/
inductive LLMNameOutcome where
  | failure (msg : String)
  | response (content : String)
deriving DecidableEq

/-- Result of `GenerateToolNameWithLLM`: the function either returns a name
or the process is terminated (`log.Fatal`). -/
inductive NameGenResult where
  | fatalExit
  | named (s : String)
deriving DecidableEq

/-- Control flow of `EndpointCapture.GenerateToolNameWithLLM` with the
classifier call abstracted by `outcome`. On `err != nil` the source calls
`log.Fatal(err)` (process exit); the `if err != nil` fallback block right
after it is unreachable. On a response, the content is `TrimSpace`d and the
deterministic fallback is used when it is empty or contains a space. -/
def GenerateToolNameWithLLM (method path : String) (outcome : LLMNameOutcome) : NameGenResult :=
  match outcome with
  | .failure _ => .fatalExit
  | .response content =>
    let tn := trimSpace content
    if tn = "" || tn.data.contains ' ' then
      .named (generateToolName method path)
    else
      .named tn

/-! ### internal/config (config.go): data model -/

/-- `config.Tool` (config.go): a replayable request template with usage
statistics. Times are modelled as `Nat`. -/
structure Tool where
  name : String
  method : String
  url : String
  headers : List (String × String)
  body : String
  description : String
  createdAt : Nat
  lastUsed : Nat
  useCount : Nat
deriving DecidableEq

/-- `config.Group`: a named cluster of tool names in stored order.
The `Group` type itself is only declared through its uses in src
(analyzer.go, grouped server); its fields follow the spec's data model
`{name, description, memberToolNames (ordered), createdAt, useCount,
lastUsed}`. -/
structure Group where
  name : String
  description : String
  toolNames : List String
  createdAt : Nat
  useCount : Nat
  lastUsed : Nat
deriving DecidableEq

/-- `config.Config`: the persisted document, with the Go maps
`Tools`/`Groups` modelled as association lists. -/
structure Config where
  tools : List (String × Tool)
  groups : List (String × Group)
  useGrouping : Bool
deriving DecidableEq

/-- Go map read `m[k]` on an association list: the first binding of `k`,
if any. -/
def alistGet (k : String) : List (String × α) → Option α
  | [] => none
  | kv :: t => if kv.1 = k then some kv.2 else alistGet k t

/-- Go map assignment `m[k] = v` on an association list: replace every
binding of `k` in place when present, otherwise append the new binding. -/
def alistPut (l : List (String × α)) (k : String) (v : α) : List (String × α) :=
  if l.any (fun kv => kv.1 = k) then
    l.map (fun kv => if kv.1 = k then (k, v) else kv)
  else
    l ++ [(k, v)]

/-- `Config.AddTool` (config.go): `c.Tools[tool.Name] = tool` — an
unconditional overwrite. -/
def Config.AddTool (c : Config) (t : Tool) : Config :=
  { c with tools := alistPut c.tools t.name t }

/-- `Config.GetTool` (config.go): `return c.Tools[name]`. -/
def Config.GetTool (c : Config) (name : String) : Option Tool :=
  alistGet name c.tools

/-- Modelled from the spec: the persistence collaborator's `ClearGroups`
mutator (the config file with the groups map is not under src). Per §3,
"a full regroup clears and replaces the entire group set". -/
def Config.ClearGroups (c : Config) : Config :=
  { c with groups := [] }

/-- Modelled from the spec: the persistence collaborator's `AddGroup`
mutator — Go map assignment `c.Groups[group.Name] = group`. -/
def Config.AddGroup (c : Config) (g : Group) : Config :=
  { c with groups := alistPut c.groups g.name g }

/-- Modelled from the spec: the persistence collaborator's
`GetToolsInGroup` — resolve a group's ordered member names against the
tools map, dropping dangling references ("Dangling member references
(names absent from the current Tool set) are dropped", §3). -/
def Config.GetToolsInGroup (c : Config) (groupName : String) : List Tool :=
  match alistGet groupName c.groups with
  | none => []
  | some g => g.toolNames.filterMap (fun n => alistGet n c.tools)

/-! ### internal/server/server.go: per-endpoint registry -/

/-- `server.MCPServer`: the per-endpoint tool registry (the `mcpServer`
SDK handle and the persisted config mirror are external collaborators;
the registry map and capacity bound are what the claims are about). -/
structure MCPServer where
  tools : List (String × Tool)
  maxTools : Nat
deriving DecidableEq

/-- `MCPServer.RegisterTool` (server.go): existing name → no-op success;
`len(s.tools) >= s.maxTools` → capacity error and no mutation; otherwise
create the tool with the given data and add it. The returned
`Option String` is Go's `error` (`none` = `nil`). -/
def MCPServer.RegisterTool (s : MCPServer) (name method url : String)
    (headers : List (String × String)) (body description : String) (now : Nat) :
    MCPServer × Option String :=
  if (alistGet name s.tools).isSome then
    (s, none)
  else if s.maxTools ≤ s.tools.length then
    (s, some ("maximum number of tools (" ++ toString s.maxTools ++ ") reached"))
  else
    let req : Tool :=
      { name := name, method := method, url := url, headers := headers
        body := body, description := description, createdAt := now
        lastUsed := 0, useCount := 0 }
    ({ s with tools := s.tools ++ [(name, req)] }, none)

/-! ### Grouped server (GroupedMCPServer) -/

/-- `GroupedMCPServer.RegisterTool`: builds the tool and stores it with
`s.config.AddTool` (an overwrite), saves, and possibly spawns a background
regroup (which touches only the groups map, modelled separately by
`GroupToolsInConfig`). It never checks a capacity bound and always returns
`nil`. -/
def GroupedRegisterTool (c : Config) (name method url : String)
    (headers : List (String × String)) (body description : String) (now : Nat) :
    Config × Option String :=
  let tool : Tool :=
    { name := name, method := method, url := url, headers := headers
      body := body, description := description, createdAt := now
      lastUsed := 0, useCount := 0 }
  (c.AddTool tool, none)

/-- The call parameters of a grouped invocation (`GroupCallParams`);
absent optional fields are the empty string / empty list, as in Go. -/
structure GroupCallParams where
  method : String
  path : String
  requestBody : String
  headers : List (String × String)
deriving DecidableEq

/-- `GroupedMCPServer.selectTool`: deterministic first-match selection
over the group's members in stored order. -/
def selectTool (c : Config) (groupName : String) (params : GroupCallParams) :
    Except String Tool :=
  let tools := c.GetToolsInGroup groupName
  if tools.length = 0 then
    .error ("no tools found in group " ++ groupName)
  else if params.method = "" then
    .error "method parameter is required"
  else if params.path ≠ "" then
    match tools.find? (fun t => eqFold t.method params.method && containsStr t.url params.path) with
    | some t => .ok t
    | none => .error ("no tool found for method " ++ params.method ++ " and path " ++ params.path)
  else
    match tools.find? (fun t => eqFold t.method params.method) with
    | some t => .ok t
    | none => .error ("no tool found for method " ++ params.method)

/-! ### Dispatch/replay: handlers of both server modes

The outbound HTTP interaction is abstracted by an explicit outcome value:
request construction, the transport call, and the response-body read each
either fail (the source returns the wrapped error) or the call yields a
status code and body. -/

/-- Outcome of one outbound HTTP attempt as seen by the handlers. -/
inductive HTTPOutcome where
  | buildFailure (msg : String)
  | transportFailure (msg : String)
  | readFailure (msg : String)
  | success (status : Nat) (body : String)
deriving DecidableEq

/-- The result text `"Status: <code>\nResponse: <body>"` both handlers
produce on any HTTP status. -/
def resultText (status : Nat) (body : String) : String :=
  "Status: " ++ toString status ++ "\nResponse: " ++ body

/-- Shared request-execution control flow (`createToolHandler`'s body and
`GroupedMCPServer.executeRequest` are identical here): error wrapping per
branch, any status code is a success. -/
def runHTTP (outcome : HTTPOutcome) : Except String String :=
  match outcome with
  | .buildFailure m => .error ("failed to create request: " ++ m)
  | .transportFailure m => .error ("request failed: " ++ m)
  | .readFailure m => .error ("failed to read response: " ++ m)
  | .success st b => .ok (resultText st b)

/-- The outbound body choice of both handlers: the caller's override when
non-empty, else the captured body. -/
def chooseBody (captured override : String) : String :=
  if override ≠ "" then override else captured

/-- `MCPServer.createToolHandler`: the per-endpoint invocation handler.
It returns the invocation result and the tool value afterwards — the
source never touches `useCount`/`lastUsed` here, so the tool is returned
unchanged on every path. -/
def createToolHandler (tool : Tool) (overrideBody : String) (outcome : HTTPOutcome) :
    Except String String × Tool :=
  let _outboundBody := chooseBody tool.body overrideBody
  (runHTTP outcome, tool)

/-- `GroupedMCPServer.updateUsageStats`: bump `useCount` and set
`lastUsed` on the named tool and the named group when present. -/
def updateUsageStats (c : Config) (groupName toolName : String) (now : Nat) : Config :=
  { c with
    tools := c.tools.map (fun kv =>
      if kv.1 = toolName then
        (kv.1, { kv.2 with useCount := kv.2.useCount + 1, lastUsed := now })
      else kv)
    groups := c.groups.map (fun kv =>
      if kv.1 = groupName then
        (kv.1, { kv.2 with useCount := kv.2.useCount + 1, lastUsed := now })
      else kv) }

/-- `GroupedMCPServer.createGroupHandler`: select the member tool, execute
the request, and update usage statistics only when execution returned
without error. Returns the invocation result and the config afterwards. -/
def createGroupHandler (c : Config) (groupName : String) (params : GroupCallParams)
    (outcome : HTTPOutcome) (now : Nat) : Except String String × Config :=
  match selectTool c groupName params with
  | .error e => (.error ("tool selection failed: " ++ e), c)
  | .ok tool =>
    let _outboundBody := chooseBody tool.body params.requestBody
    match runHTTP outcome with
    | .error e => (.error e, c)
    | .ok text => (.ok text, updateUsageStats c groupName tool.name now)

/-! ### internal/grouping/analyzer.go: LLMGrouper.GroupToolsInConfig -/

/-- One group as parsed from the grouping classifier's JSON answer. -/
structure LLMGroupOut where
  name : String
  description : String
  toolNames : List String
deriving DecidableEq

/-- Outcome of the grouping-classifier call plus the JSON parse of its
answer, abstracting the chat completion and `json.Unmarshal`. -/
inductive GroupLLMOutcome where
  | failure (msg : String)
  | badJSON (msg : String)
  | groupsOut (gs : List LLMGroupOut)
deriving DecidableEq

/-- `LLMGrouper.GroupToolsInConfig`: clears all groups FIRST, returns `nil`
early on an empty tool set, then consults the classifier; on a call or
parse failure it returns the wrapped error (with the groups already
cleared); on success it adds each answered group whose member names,
filtered against the current tool set, are non-empty, and sets
`UseGrouping`. The final `cfg.Save` is external persistence, modelled as
always succeeding. -/
def GroupToolsInConfig (cfg : Config) (now : Nat) (outcome : GroupLLMOutcome) :
    Config × Option String :=
  let c1 := cfg.ClearGroups
  if c1.tools.length = 0 then
    (c1, none)
  else
    match outcome with
    | .failure m => (c1, some ("LLM grouping failed: " ++ m))
    | .badJSON m => (c1, some ("failed to parse LLM response: " ++ m))
    | .groupsOut gs =>
      let c2 := gs.foldl (fun c g =>
        let valid := g.toolNames.filter (fun n => (c.GetTool n).isSome)
        if 0 < valid.length then
          c.AddGroup
            { name := g.name, description := g.description, toolNames := valid
              createdAt := now, useCount := 0, lastUsed := 0 }
        else c) c1
      ({ c2 with useGrouping := true }, none)

/-- `GroupedMCPServer.rebuildGroups`: run the regroup; on error only log
and return — the config keeps whatever state `GroupToolsInConfig` left. -/
def rebuildGroups (cfg : Config) (now : Nat) (outcome : GroupLLMOutcome) : Config :=
  (GroupToolsInConfig cfg now outcome).1

/-! ### Endpoint registry: EndpointCapture.recordAPICall -/

/-- `capture.APICall`: the deduplicated record of one observed
(method, path) pair. -/
structure APICall where
  method : String
  path : String
  headers : List (String × String)
  body : String
  firstSeen : Nat
  lastSeen : Nat
  callCount : Nat
deriving DecidableEq

/-- One target-matched captured request handed to `recordAPICall`, with
the observation time (`time.Now()`) made explicit. -/
structure CaptureEvent where
  method : String
  path : String
  headers : List (String × String)
  body : String
  time : Nat
deriving DecidableEq

/-- The dedup key `fmt.Sprintf("%s_%s", method, path)`. -/
def keyOf (e : CaptureEvent) : String := e.method ++ "_" ++ e.path

/-- The fresh `APICall` built on first sight of a key. -/
def freshCall (e : CaptureEvent) : APICall :=
  { method := e.method, path := e.path
    headers := filterSensitiveHeaders e.headers, body := e.body
    firstSeen := e.time, lastSeen := e.time, callCount := 1 }

/-- State of the endpoint registry: the `seenAPIs` map and the keys for
which a tool-registration task (`go ec.registerMCPTool`) was spawned, in
spawn order. -/
structure CaptureState where
  seenAPIs : List (String × APICall)
  spawned : List String
deriving DecidableEq

/-- `EndpointCapture.recordAPICall`: existing key → update only
`lastSeen`/`callCount`; new key → store the fresh call and spawn the
registration task. -/
def recordAPICall (st : CaptureState) (e : CaptureEvent) : CaptureState :=
  let key := keyOf e
  match alistGet key st.seenAPIs with
  | some existing =>
    { st with seenAPIs := st.seenAPIs.map (fun kv =>
        if kv.1 = key then
          (key, { existing with lastSeen := e.time, callCount := existing.callCount + 1 })
        else kv) }
  | none =>
    { seenAPIs := st.seenAPIs ++ [(key, freshCall e)]
      spawned := st.spawned ++ [key] }

/-- The capture loop's effect on the endpoint registry over a finite
sequence of target-matched requests. -/
def runCapture (evs : List CaptureEvent) : CaptureState :=
  evs.foldl recordAPICall ⟨[], []⟩

/-- The sub-sequence of events carrying a given dedup key. -/
def matchingEvents (evs : List CaptureEvent) (k : String) : List CaptureEvent :=
  evs.filter (fun e => keyOf e = k)

/-! ### Concrete fixtures used by witnesses and counterexamples -/

/-- A tool fixture with the given name, method and URL. -/
def mkTool (n m u : String) : Tool :=
  { name := n, method := m, url := u, headers := [], body := ""
    description := "ex", createdAt := 0, lastUsed := 0, useCount := 0 }

def usersTool : Tool := mkTool "get_users" "GET" "/users"

def usersOrdersTool : Tool := mkTool "get_users_1_orders" "GET" "/users/1/orders"

def postUsersTool : Tool := mkTool "post_users" "POST" "/users"

/-- The spec §8 example group `[{GET,/users}, {GET,/users/1/orders},
{POST,/users}]` in stored order. -/
def apiGroup : Group :=
  { name := "api", description := "user ops"
    toolNames := ["get_users", "get_users_1_orders", "post_users"]
    createdAt := 0, useCount := 0, lastUsed := 0 }

def cfgFix : Config :=
  { tools := [("get_users", usersTool), ("get_users_1_orders", usersOrdersTool),
      ("post_users", postUsersTool)]
    groups := [("api", apiGroup)], useGrouping := true }

def cfgOne : Config :=
  { tools := [("get_users", usersTool)], groups := [], useGrouping := false }

def cfgEmpty : Config := { tools := [], groups := [], useGrouping := false }

/-- A per-endpoint registry already at its capacity of one tool. -/
def srvFix : MCPServer := { tools := [("get_users", usersTool)], maxTools := 1 }

/-- Capture-event fixtures: two observations of `GET /users` around one
`POST /users`. -/
def ev1 : CaptureEvent :=
  { method := "GET", path := "/users", headers := [("Accept", "a"), ("Cookie", "sid")]
    body := "", time := 1 }

def ev2 : CaptureEvent :=
  { method := "POST", path := "/users", headers := [], body := "x", time := 2 }

def ev3 : CaptureEvent :=
  { method := "GET", path := "/users", headers := [("Other", "b")], body := "y", time := 3 }

deriving instance DecidableEq for Except

/-! ### Helper lemmas -/

/-- `List.any` over an association list agrees with `alistGet`'s
success. -/
lemma alist_any_eq_isSome (l : List (String × α)) (k : String) :
    l.any (fun kv => kv.1 = k) = (alistGet k l).isSome := by
  induction l with
  | nil => rfl
  | cons kv t ih =>
    by_cases h : kv.1 = k
    · simp [alistGet, h]
    · simp [alistGet, h, ih]

/-- Reading back a key just written by `alistPut`. -/
lemma alistGet_alistPut (l : List (String × α)) (k : String) (v : α) :
    alistGet k (alistPut l k v) = some v := by
  unfold alistPut
  by_cases h : l.any (fun kv => kv.1 = k)
  · rw [if_pos h]
    induction l with
    | nil => simp at h
    | cons kv t ih =>
      simp only [List.any_cons, Bool.or_eq_true, decide_eq_true_eq] at h
      by_cases hk : kv.1 = k
      · simp [alistGet, hk]
      · have hx : t.any (fun kv => kv.1 = k) = true := by
          cases h with
          | inl hc => exact absurd hc hk
          | inr ht => exact ht
        simp only [List.map_cons, if_neg hk]
        rw [show alistGet k (kv :: List.map (fun kv => if kv.1 = k then (k, v) else kv) t) =
          alistGet k (List.map (fun kv => if kv.1 = k then (k, v) else kv) t) from by
            simp [alistGet, hk]]
        exact ih hx
  · rw [if_neg h]
    induction l with
    | nil => simp [alistGet]
    | cons kv t ih =>
      simp only [List.any_cons, Bool.or_eq_true, decide_eq_true_eq, not_or] at h
      simp only [List.cons_append]
      rw [show alistGet k ((kv :: (t ++ [(k, v)])) : List (String × α)) =
        alistGet k (t ++ [(k, v)]) from by simp [alistGet, h.1]]
      exact ih (by simp [h.2])

/-- Writing a fresh key with `alistPut` grows the map by one entry. -/
lemma alistPut_fresh_length (l : List (String × α)) (k : String) (v : α)
    (h : alistGet k l = none) : (alistPut l k v).length = l.length + 1 := by
  unfold alistPut
  rw [if_neg (by rw [alist_any_eq_isSome, h]; simp)]
  simp

/-- Reading a key after an in-place pointwise update of its value. -/
lemma alistGet_map_update (l : List (String × α)) (k : String) (f : α → α) :
    alistGet k (l.map (fun kv => if kv.1 = k then (kv.1, f kv.2) else kv)) =
      (alistGet k l).map f := by
  induction l with
  | nil => rfl
  | cons kv t ih =>
    by_cases h : kv.1 = k
    · simp [alistGet, h]
    · simp [alistGet, h, ih]

/-- Reading a key appended to a map that did not contain it. -/
lemma alistGet_append_self (l : List (String × α)) (k : String) (v : α)
    (h : alistGet k l = none) : alistGet k (l ++ [(k, v)]) = some v := by
  induction l with
  | nil => simp [alistGet]
  | cons kv t ih =>
    by_cases hk : kv.1 = k
    · rw [alistGet] at h
      simp [hk] at h
    · rw [alistGet] at h
      rw [if_neg hk] at h
      simp only [List.cons_append]
      rw [show alistGet k (kv :: (t ++ [(k, v)])) = alistGet k (t ++ [(k, v)]) from by
        simp [alistGet, hk]]
      exact ih h

/-- When the trimmed-and-replaced path does not begin with `'?'`, the
source's `safePath` computation and the spec's description agree. -/
lemma safePath_agree (l : List Char) (h : (replSlash (trimSlash l)).head? ≠ some '?') :
    safePathCode l = safePathSpec l := by
  cases hs : replSlash (trimSlash l) with
  | nil => simp only [safePathCode, safePathSpec, hs]; decide
  | cons c cs =>
    have hc : c ≠ '?' := by
      intro hcq
      exact h (by rw [hs, hcq]; rfl)
    simp only [safePathCode, safePathSpec, hs]
    rw [if_neg (List.cons_ne_nil c cs)]
    show (match idxOfQm (c :: cs) with
      | some q => if 0 < q then (c :: cs).take q else c :: cs
      | none => c :: cs) = _
    rw [show idxOfQm (c :: cs) = (idxOfQm cs).map (· + 1) by
      simp [idxOfQm, hc]]
    cases hq : idxOfQm cs with
    | none => simp
    | some q => simp [List.take_succ_cons]

/-- The entry-wise function inside `extractHeaders` never changes the key. -/
lemma extractHeaders_key_eq {kv : String × List String} {b : String × String}
    (h : (match kv.2 with
          | [] => none
          | v :: _ => if isSensitiveKey kv.1 then none else some (kv.1, v)) = some b) :
    b.1 = kv.1 := by
  cases hv : kv.2 with
  | nil => rw [hv] at h; exact absurd h (by simp)
  | cons v rest =>
    rw [hv] at h
    by_cases hsk : isSensitiveKey kv.1
    · simp [hsk] at h
    · simp only [if_neg hsk, Option.some.injEq] at h
      rw [← h]

/-- The keys of `extractHeaders hh` form a sublist of the keys of `hh`. -/
lemma extractHeaders_keys_sublist (hh : List (String × List String)) :
    List.Sublist ((extractHeaders hh).map Prod.fst) (hh.map Prod.fst) := by
  induction hh with
  | nil => simp [extractHeaders]
  | cons kv t ih =>
    rw [extractHeaders, List.filterMap_cons]
    cases hf : (match kv.2 with
          | [] => none
          | v :: _ => if isSensitiveKey kv.1 then none else some (kv.1, v)) with
    | none =>
      exact List.Sublist.trans ih (List.sublist_cons_self _ _)
    | some b =>
      have hb := extractHeaders_key_eq hf
      simp only [List.map_cons, hb]
      exact List.Sublist.cons₂ _ ih

/-! ### Claims -/

/-- Claim C3 (code bug in the source): on a classifier transport/API
failure, `GenerateToolNameWithLLM` calls `log.Fatal` and terminates the
process instead of returning the deterministic fallback name — the
fallback branch guarding the same error is dead code. Empty or
space-containing responses do fall back as the claim states. -/
theorem claim_C3 :
    GenerateToolNameWithLLM "GET" "/users" (.failure "connection refused") = .fatalExit
    ∧ NameGenResult.fatalExit ≠ NameGenResult.named (generateToolName "GET" "/users")
    ∧ GenerateToolNameWithLLM "GET" "/users" (.response "") =
        .named (generateToolName "GET" "/users")
    ∧ GenerateToolNameWithLLM "GET" "/users" (.response "  foo bar ") =
        .named (generateToolName "GET" "/users") := by decide

/-- Claim C8 (counterexample): at path `"/?x=1"` the source keeps the
query string (the `?` sits at index 0, and the strip requires
`queryPos > 0`), so the produced name differs from the spec's
transformation, which would strip the query and substitute `root`. -/
theorem claim_C8_counterexample :
    generateToolName "GET" "/?x=1" = "get_?x=1" ∧
    specToolName "GET" "/?x=1" = "get_root" ∧
    generateToolName "GET" "/?x=1" ≠ specToolName "GET" "/?x=1" := by decide

/-- Claim C8 (amended): whenever the trimmed, slash-replaced path does not
begin with `'?'`, the fallback name agrees with the spec's described
transformation; and the spec's concrete example holds:
`generateToolName("GET", "/users/42/orders?x=1") = "get_users_42_orders"`. -/
theorem claim_C8 :
    (∀ m p : String, (replSlash (trimSlash p.data)).head? ≠ some '?' →
      generateToolName m p = specToolName m p)
    ∧ generateToolName "GET" "/users/42/orders?x=1" = "get_users_42_orders" := by
  constructor
  · intro m p h
    unfold generateToolName specToolName
    rw [safePath_agree p.data h]
  · decide

/-- Witness for claim C8 at the spec's example input. -/
theorem claim_C8_witness :
    (replSlash (trimSlash "/users/42/orders?x=1".data)).head? ≠ some '?' ∧
    generateToolName "GET" "/users/42/orders?x=1" =
      specToolName "GET" "/users/42/orders?x=1" :=
  ⟨by decide, claim_C8.1 "GET" "/users/42/orders?x=1" (by decide)⟩

/-- Claim C9: header sanitization keeps exactly the entries whose key is
not a case-insensitive match of Authorization/Cookie/X-API-Key/
X-Auth-Token, values and order untouched (the output is a sublist of the
input). -/
theorem claim_C9 :
    (∀ (hs : List (String × String)) (k v : String),
      (k, v) ∈ filterSensitiveHeaders hs ↔
        ((k, v) ∈ hs ∧
          ¬(eqFold k "Authorization" = true ∨ eqFold k "Cookie" = true ∨
            eqFold k "X-API-Key" = true ∨ eqFold k "X-Auth-Token" = true)))
    ∧ (∀ hs : List (String × String), List.Sublist (filterSensitiveHeaders hs) hs) := by
  constructor
  · intro hs k v
    have h1 : eqFold k "Authorization" = eqFold k "authorization" := by
      unfold eqFold; rw [show lowerStr "Authorization" = lowerStr "authorization" from by decide]
    have h2 : eqFold k "Cookie" = eqFold k "cookie" := by
      unfold eqFold; rw [show lowerStr "Cookie" = lowerStr "cookie" from by decide]
    have h3 : eqFold k "X-API-Key" = eqFold k "x-api-key" := by
      unfold eqFold; rw [show lowerStr "X-API-Key" = lowerStr "x-api-key" from by decide]
    have h4 : eqFold k "X-Auth-Token" = eqFold k "x-auth-token" := by
      unfold eqFold; rw [show lowerStr "X-Auth-Token" = lowerStr "x-auth-token" from by decide]
    simp [filterSensitiveHeaders, List.mem_filter, isSensitiveKey, sensitiveList,
      h1, h2, h3, h4, or_assoc, not_or]
  · intro hs
    exact List.filter_sublist hs

/-- Claim C10: the forwarded header map records, for every non-sensitive
entry of the parsed multi-valued header map, exactly its first value;
every recorded value is the first value of some entry; and distinct input
names yield distinct (hence at most one value per) output names. -/
theorem claim_C10 :
    (∀ (hh : List (String × List String)) (k v : String) (vs : List String),
      (k, v :: vs) ∈ hh → isSensitiveKey k = false → (k, v) ∈ extractHeaders hh)
    ∧ (∀ (hh : List (String × List String)) (k v : String),
      (k, v) ∈ extractHeaders hh →
        ∃ vs, (k, v :: vs) ∈ hh ∧ isSensitiveKey k = false)
    ∧ (∀ hh : List (String × List String),
      (hh.map Prod.fst).Nodup → ((extractHeaders hh).map Prod.fst).Nodup) := by
  refine ⟨?_, ?_, ?_⟩
  · intro hh k v vs hmem hsk
    unfold extractHeaders
    rw [List.mem_filterMap]
    exact ⟨(k, v :: vs), hmem, by simp [hsk]⟩
  · intro hh k v hmem
    unfold extractHeaders at hmem
    rw [List.mem_filterMap] at hmem
    obtain ⟨⟨k', vs'⟩, hmem', hf⟩ := hmem
    cases vs' with
    | nil => simp at hf
    | cons v' rest =>
      by_cases hsk : isSensitiveKey k'
      · simp [hsk] at hf
      · simp only [if_neg hsk, Option.some.injEq, Prod.mk.injEq] at hf
        obtain ⟨hk, hv⟩ := hf
        subst hk; subst hv
        exact ⟨rest, hmem', Bool.eq_false_iff.mpr hsk⟩
  · intro hh hnd
    exact hnd.sublist (extractHeaders_keys_sublist hh)

/-- Witness for claim C10 on a concrete header map carrying a
multi-valued Accept header and a Cookie to be dropped. -/
theorem claim_C10_witness :
    ("Accept", "text/html") ∈
      extractHeaders [("Accept", ["text/html", "app/json"]), ("Cookie", ["sid=1"])] ∧
    (∃ vs, ("Accept", "text/html" :: vs) ∈
      [("Accept", ["text/html", "app/json"]), ("Cookie", ["sid=1"])] ∧
      isSensitiveKey "Accept" = false) :=
  ⟨claim_C10.1 [("Accept", ["text/html", "app/json"]), ("Cookie", ["sid=1"])]
      "Accept" "text/html" ["app/json"] (by decide) (by decide),
    claim_C10.2.1 [("Accept", ["text/html", "app/json"]), ("Cookie", ["sid=1"])]
      "Accept" "text/html"
      (claim_C10.1 [("Accept", ["text/html", "app/json"]), ("Cookie", ["sid=1"])]
        "Accept" "text/html" ["app/json"] (by decide) (by decide))⟩

/-- Claim C1 (counterexample): in grouped mode `RegisterTool` enforces no
capacity bound — with a registry already holding one tool (so at
`maxTools` for a bound of 1), a further distinct name still succeeds and
grows the registry, against the claimed capacity failure in every mode. -/
theorem claim_C1_counterexample :
    (GroupedRegisterTool cfgOne "new_tool" "GET" "/n" [] "" "d" 0).2 = none ∧
    (GroupedRegisterTool cfgOne "new_tool" "GET" "/n" [] "" "d" 0).1.tools.length = 2 := by
  decide

/-- Claim C1 (amended): in per-endpoint mode a distinct new name below
capacity registers and increments the size, at or above capacity fails
with the capacity error and mutates nothing; in grouped mode
`RegisterTool` never fails and a distinct name always grows the registry,
with no capacity bound. -/
theorem claim_C1 :
    (∀ (s : MCPServer) (name method url : String) (headers : List (String × String))
        (body description : String) (now : Nat),
      alistGet name s.tools = none → s.tools.length < s.maxTools →
        (s.RegisterTool name method url headers body description now).2 = none ∧
        (s.RegisterTool name method url headers body description now).1.tools.length =
          s.tools.length + 1 ∧
        (alistGet name (s.RegisterTool name method url headers body description now).1.tools).isSome)
    ∧ (∀ (s : MCPServer) (name method url : String) (headers : List (String × String))
        (body description : String) (now : Nat),
      alistGet name s.tools = none → s.maxTools ≤ s.tools.length →
        (s.RegisterTool name method url headers body description now).2 =
          some ("maximum number of tools (" ++ toString s.maxTools ++ ") reached") ∧
        (s.RegisterTool name method url headers body description now).1 = s)
    ∧ (∀ (c : Config) (name method url : String) (headers : List (String × String))
        (body description : String) (now : Nat),
      alistGet name c.tools = none →
        (GroupedRegisterTool c name method url headers body description now).2 = none ∧
        (GroupedRegisterTool c name method url headers body description now).1.tools.length =
          c.tools.length + 1) := by
  refine ⟨?_, ?_, ?_⟩
  · intro s name method url headers body description now hfresh hlt
    refine ⟨?_, ?_, ?_⟩ <;>
      simp [MCPServer.RegisterTool, hfresh, Nat.not_le.mpr hlt,
        alistGet_append_self _ _ _ hfresh]
  · intro s name method url headers body description now hfresh hle
    refine ⟨?_, ?_⟩ <;>
      simp [MCPServer.RegisterTool, hfresh, if_pos hle]
  · intro c name method url headers body description now hfresh
    refine ⟨rfl, ?_⟩
    simp [GroupedRegisterTool, Config.AddTool,
      alistPut_fresh_length _ _ _ hfresh]

/-- Witness for claim C1 on a full per-endpoint registry of capacity 1. -/
theorem claim_C1_witness :
    (srvFix.RegisterTool "extra_tool" "GET" "/n" [] "" "d" 0).2 =
      some ("maximum number of tools (" ++ toString srvFix.maxTools ++ ") reached") ∧
    (srvFix.RegisterTool "extra_tool" "GET" "/n" [] "" "d" 0).1 = srvFix :=
  claim_C1.2.1 srvFix "extra_tool" "GET" "/n" [] "" "d" 0 (by decide) (by decide)

/-- Claim C2 (counterexample): in grouped mode re-registering an existing
name overwrites the stored tool (`c.Tools[tool.Name] = tool`): after
registering "a" as GET and then "a" as POST, the stored method is POST. -/
theorem claim_C2_counterexample :
    ((GroupedRegisterTool
        (GroupedRegisterTool cfgEmpty "a" "GET" "/a" [] "b1" "d1" 0).1
        "a" "POST" "/a2" [] "b2" "d2" 1).1.GetTool "a").map (fun t => t.method) =
      some "POST" ∧
    some "POST" ≠ some "GET" := by decide

/-- Claim C2 (amended): in per-endpoint mode re-registration of an
existing name is a successful no-op leaving registry and stored data
unchanged (first registration wins); in grouped mode a later registration
with the same name replaces the stored tool with the new data (last
registration wins). -/
theorem claim_C2 :
    (∀ (s : MCPServer) (name method url : String) (headers : List (String × String))
        (body description : String) (now : Nat),
      (alistGet name s.tools).isSome →
        s.RegisterTool name method url headers body description now = (s, none))
    ∧ (∀ (c : Config) (name method url : String) (headers : List (String × String))
        (body description : String) (now : Nat),
      (GroupedRegisterTool c name method url headers body description now).1.GetTool name =
        some { name := name, method := method, url := url, headers := headers, body := body
               description := description, createdAt := now, lastUsed := 0, useCount := 0 }) := by
  constructor
  · intro s name method url headers body description now hex
    simp [MCPServer.RegisterTool, hex]
  · intro c name method url headers body description now
    simp [GroupedRegisterTool, Config.GetTool, Config.AddTool, alistGet_alistPut]

/-- Witness for claim C2: re-registering the already-present name of
`srvFix` with different data is a no-op success. -/
theorem claim_C2_witness :
    srvFix.RegisterTool "get_users" "POST" "/other" [] "zz" "zz" 9 = (srvFix, none) :=
  claim_C2.1 srvFix "get_users" "POST" "/other" [] "zz" "zz" 9 (by decide)

/-- Claim C4 (counterexample): `GroupToolsInConfig` clears the group set
before consulting the classifier, so on a classifier failure the
previously stored groups are gone rather than left unchanged. -/
theorem claim_C4_counterexample :
    cfgFix.groups ≠ [] ∧
    (rebuildGroups cfgFix 7 (.failure "api down")).groups = [] := by decide

/-- Claim C4 (amended): on a classifier call failure or unparsable
response the regroup is abandoned non-fatally (the error is only
returned/logged), but the previously stored group set has already been
cleared, so the config is left with no groups — not with the previous
ones; tools and the rest of the config are untouched. -/
theorem claim_C4 (cfg : Config) (now : Nat) (m : String) (h : cfg.tools ≠ []) :
    GroupToolsInConfig cfg now (.failure m) =
      (cfg.ClearGroups, some ("LLM grouping failed: " ++ m)) ∧
    GroupToolsInConfig cfg now (.badJSON m) =
      (cfg.ClearGroups, some ("failed to parse LLM response: " ++ m)) ∧
    (rebuildGroups cfg now (.failure m)).groups = [] := by
  have hlen : cfg.tools.length ≠ 0 :=
    Nat.pos_iff_ne_zero.mp (List.length_pos.mpr h)
  refine ⟨?_, ?_, ?_⟩ <;>
    simp [GroupToolsInConfig, rebuildGroups, Config.ClearGroups, hlen]

/-- Witness for claim C4 at the concrete grouped fixture. -/
theorem claim_C4_witness :
    GroupToolsInConfig cfgFix 7 (.failure "api down") =
      (cfgFix.ClearGroups, some ("LLM grouping failed: " ++ "api down")) :=
  (claim_C4 cfgFix 7 "api down" (by decide)).1

/-- Claim C5 (counterexample): a per-endpoint invocation whose request
reached the network and succeeded leaves `useCount` unchanged — the
per-endpoint handler never updates usage statistics. -/
theorem claim_C5_counterexample :
    (createToolHandler usersTool "" (.success 200 "ok")).2.useCount = usersTool.useCount ∧
    (createToolHandler usersTool "" (.success 200 "ok")).2.useCount ≠
      usersTool.useCount + 1 := by decide

/-- Claim C5 (amended): the per-endpoint handler never updates the tool's
usage statistics on any outcome; the grouped handler leaves the config
unchanged when the transport fails or the response read fails, and
increments the invoked tool's `useCount` and sets `lastUsed` exactly when
the request fully succeeded. -/
theorem claim_C5 :
    (∀ (tool : Tool) (ob : String) (outcome : HTTPOutcome),
      (createToolHandler tool ob outcome).2 = tool)
    ∧ (∀ (c : Config) (g : String) (p : GroupCallParams) (m : String) (now : Nat),
      (createGroupHandler c g p (.transportFailure m) now).2 = c)
    ∧ (∀ (c : Config) (g : String) (p : GroupCallParams) (m : String) (now : Nat),
      (createGroupHandler c g p (.readFailure m) now).2 = c)
    ∧ (∀ (c : Config) (g : String) (p : GroupCallParams) (st : Nat) (b : String)
        (now : Nat) (tool t0 : Tool),
      selectTool c g p = .ok tool → alistGet tool.name c.tools = some t0 →
        alistGet tool.name (createGroupHandler c g p (.success st b) now).2.tools =
          some { t0 with useCount := t0.useCount + 1, lastUsed := now }) := by
  refine ⟨?_, ?_, ?_, ?_⟩
  · intro tool ob outcome
    rfl
  · intro c g p m now
    cases hsel : selectTool c g p with
    | error e => simp [createGroupHandler, hsel]
    | ok tool => simp [createGroupHandler, hsel, runHTTP]
  · intro c g p m now
    cases hsel : selectTool c g p with
    | error e => simp [createGroupHandler, hsel]
    | ok tool => simp [createGroupHandler, hsel, runHTTP]
  · intro c g p st b now tool t0 hsel hget
    simp only [createGroupHandler, hsel, runHTTP, updateUsageStats]
    rw [alistGet_map_update c.tools tool.name
      (fun t => { t with useCount := t.useCount + 1, lastUsed := now }), hget]
    rfl

/-- Witness for claim C5: a successful grouped invocation on the fixture
bumps the selected tool's use count. -/
theorem claim_C5_witness :
    alistGet usersTool.name
        (createGroupHandler cfgFix "api" ⟨"GET", "", "", []⟩ (.success 200 "ok") 5).2.tools =
      some { usersTool with useCount := usersTool.useCount + 1, lastUsed := 5 } :=
  claim_C5.2.2.2 cfgFix "api" ⟨"GET", "", "", []⟩ 200 "ok" 5 usersTool usersTool
    (by decide) (by decide)

/-- Claim C6: group tool selection is deterministic first-match over the
members in stored order — missing method is a client error; with a path,
the first member matching method case-insensitively whose URL contains the
path wins, else the method+path error; without a path, the first member
matching the method wins, else the method error — including the spec's
three concrete examples. -/
theorem claim_C6 :
    (∀ (c : Config) (g : String) (p : GroupCallParams),
      c.GetToolsInGroup g ≠ [] → p.method = "" →
        selectTool c g p = .error "method parameter is required")
    ∧ (∀ (c : Config) (g : String) (p : GroupCallParams),
      c.GetToolsInGroup g ≠ [] → p.method ≠ "" → p.path ≠ "" →
        selectTool c g p =
          (match (c.GetToolsInGroup g).find?
              (fun t => eqFold t.method p.method && containsStr t.url p.path) with
            | some t => .ok t
            | none => .error ("no tool found for method " ++ p.method ++
                " and path " ++ p.path)))
    ∧ (∀ (c : Config) (g : String) (p : GroupCallParams),
      c.GetToolsInGroup g ≠ [] → p.method ≠ "" → p.path = "" →
        selectTool c g p =
          (match (c.GetToolsInGroup g).find? (fun t => eqFold t.method p.method) with
            | some t => .ok t
            | none => .error ("no tool found for method " ++ p.method)))
    ∧ selectTool cfgFix "api" ⟨"GET", "orders", "", []⟩ = .ok usersOrdersTool
    ∧ selectTool cfgFix "api" ⟨"GET", "", "", []⟩ = .ok usersTool
    ∧ selectTool cfgFix "api" ⟨"DELETE", "", "", []⟩ =
        .error "no tool found for method DELETE" := by
  have hnonempty : ∀ (c : Config) (g : String), c.GetToolsInGroup g ≠ [] →
      (c.GetToolsInGroup g).length ≠ 0 := fun c g h =>
    Nat.pos_iff_ne_zero.mp (List.length_pos.mpr h)
  refine ⟨?_, ?_, ?_, ?_, ?_, ?_⟩
  · intro c g p hne hm
    simp [selectTool, hnonempty c g hne, hm]
  · intro c g p hne hm hp
    simp [selectTool, hnonempty c g hne, hm, hp]
  · intro c g p hne hm hp
    simp [selectTool, hnonempty c g hne, hm, hp]
  · decide
  · decide
  · decide

/-- Witness for claim C6: a missing method on the non-empty fixture group
is the client error. -/
theorem claim_C6_witness :
    selectTool cfgFix "api" ⟨"", "", "", []⟩ = .error "method parameter is required" :=
  claim_C6.1 cfgFix "api" ⟨"", "", "", []⟩ (by decide) rfl

/-! ### Claim C7: endpoint-registry characterization -/

/-- `alistGet` distributes over appending maps, preferring the left one. -/
lemma alistGet_append (l l' : List (String × α)) (k : String) :
    alistGet k (l ++ l') = (alistGet k l).or (alistGet k l') := by
  induction l with
  | nil => simp [alistGet]
  | cons kv t ih =>
    by_cases h : kv.1 = k
    · simp [alistGet, h]
    · simp [alistGet, h, ih]

/-- In-place constant replacement of one key leaves other keys' reads
unchanged. -/
lemma alistGet_map_const_ne (l : List (String × α)) (k' k : String) (w : α)
    (h : k ≠ k') :
    alistGet k (l.map (fun kv => if kv.1 = k' then (k', w) else kv)) = alistGet k l := by
  induction l with
  | nil => rfl
  | cons kv t ih =>
    by_cases hk : kv.1 = k'
    · have hne : k' ≠ k := fun he => h he.symm
      simp [alistGet, hk, hne, ih]
    · simp only [List.map_cons, if_neg hk]
      by_cases hkk : kv.1 = k
      · simp [alistGet, hkk]
      · simp [alistGet, hkk, ih]

/-- In-place constant replacement of a present key is read back. -/
lemma alistGet_map_const_self (l : List (String × α)) (k : String) (w : α)
    (h : (alistGet k l).isSome) :
    alistGet k (l.map (fun kv => if kv.1 = k then (k, w) else kv)) = some w := by
  induction l with
  | nil => simp [alistGet] at h
  | cons kv t ih =>
    by_cases hk : kv.1 = k
    · simp [alistGet, hk]
    · rw [alistGet, if_neg hk] at h
      simp [alistGet, hk, ih h]

/-- `recordAPICall` on an unseen key stores the fresh call and spawns the
registration task. -/
lemma recordAPICall_of_none (st : CaptureState) (e : CaptureEvent)
    (h : alistGet (keyOf e) st.seenAPIs = none) :
    recordAPICall st e =
      { seenAPIs := st.seenAPIs ++ [(keyOf e, freshCall e)]
        spawned := st.spawned ++ [keyOf e] } := by
  simp [recordAPICall, h]

/-- `recordAPICall` on a seen key only bumps `lastSeen`/`callCount`. -/
lemma recordAPICall_of_some (st : CaptureState) (e : CaptureEvent) (ex : APICall)
    (h : alistGet (keyOf e) st.seenAPIs = some ex) :
    recordAPICall st e =
      { st with seenAPIs := st.seenAPIs.map (fun kv =>
          if kv.1 = keyOf e then
            (keyOf e, { ex with lastSeen := e.time, callCount := ex.callCount + 1 })
          else kv) } := by
  simp [recordAPICall, h]

/-- Unfolding the capture fold over one appended event. -/
lemma runCapture_concat (evs : List CaptureEvent) (e : CaptureEvent) :
    runCapture (evs ++ [e]) = recordAPICall (runCapture evs) e := by
  simp [runCapture, List.foldl_append]

/-- The key-matching sub-sequence of one appended event. -/
lemma matchingEvents_concat (evs : List CaptureEvent) (e : CaptureEvent) (k : String) :
    matchingEvents (evs ++ [e]) k =
      matchingEvents evs k ++ (if keyOf e = k then [e] else []) := by
  by_cases hk : keyOf e = k <;> simp [matchingEvents, List.filter_append, hk]

/-- Full characterization of the endpoint registry after a capture run:
the record stored under key `k` is none when no event carried `k`, else
it is built from the first such event, with `lastSeen` the last such
event's time and `callCount` the number of such events. -/
lemma runCapture_get (evs : List CaptureEvent) (k : String) :
    alistGet k (runCapture evs).seenAPIs =
      (matchingEvents evs k).head?.bind (fun e0 =>
        (matchingEvents evs k).getLast?.map (fun eL =>
          { method := e0.method, path := e0.path
            headers := filterSensitiveHeaders e0.headers, body := e0.body
            firstSeen := e0.time, lastSeen := eL.time
            callCount := (matchingEvents evs k).length })) := by
  induction evs using List.reverseRecOn with
  | nil => rfl
  | append_singleton evs e ih =>
    rw [runCapture_concat, matchingEvents_concat]
    by_cases hk : keyOf e = k
    · rw [if_pos hk]
      cases hM : matchingEvents evs k with
      | nil =>
        have hget : alistGet (keyOf e) (runCapture evs).seenAPIs = none := by
          rw [hk, ih, hM]; rfl
        rw [recordAPICall_of_none _ _ hget]
        simp only [List.nil_append]
        rw [alistGet_append, hk] at *
        rw [show alistGet k (runCapture evs).seenAPIs = none from by rw [ih, hM]; rfl]
        simp [alistGet, freshCall]
      | cons e0 rest =>
        have hgetS : alistGet (keyOf e) (runCapture evs).seenAPIs =
            some { method := e0.method, path := e0.path
                   headers := filterSensitiveHeaders e0.headers, body := e0.body
                   firstSeen := e0.time
                   lastSeen := ((e0 :: rest).getLast (List.cons_ne_nil e0 rest)).time
                   callCount := (e0 :: rest).length } := by
          rw [hk, ih, hM]
          simp [List.getLast?_eq_getLast]
        rw [recordAPICall_of_some _ _ _ hgetS]
        simp only
        rw [hk] at hgetS ⊢
        rw [alistGet_map_const_self _ _ _ (by rw [hgetS]; rfl)]
        simp only [List.cons_append, List.head?_cons, Option.bind_some, List.length_cons,
          List.length_append, List.length_singleton]
        rw [← List.cons_append, List.getLast?_concat]
        rfl
    · rw [if_neg hk, List.append_nil, ← ih]
      have hne : k ≠ keyOf e := fun he => hk he.symm
      cases hget : alistGet (keyOf e) (runCapture evs).seenAPIs with
      | none =>
        rw [recordAPICall_of_none _ _ hget]
        simp only
        rw [alistGet_append]
        have hnone : alistGet k [(keyOf e, freshCall e)] = none := by
          simp [alistGet, hk]
        rw [hnone]
        simp
      | some ex =>
        rw [recordAPICall_of_some _ _ _ hget]
        simp only
        exact alistGet_map_const_ne _ _ _ _ hne

/-- A registration task is spawned exactly once for every key that
occurs, and never for a key that does not. -/
lemma runCapture_spawned (evs : List CaptureEvent) (k : String) :
    (runCapture evs).spawned.count k =
      if matchingEvents evs k = [] then 0 else 1 := by
  induction evs using List.reverseRecOn with
  | nil => simp [runCapture, matchingEvents]
  | append_singleton evs e ih =>
    rw [runCapture_concat, matchingEvents_concat]
    by_cases hk : keyOf e = k
    · rw [if_pos hk]
      cases hM : matchingEvents evs k with
      | nil =>
        have hget : alistGet (keyOf e) (runCapture evs).seenAPIs = none := by
          rw [hk, runCapture_get, hM]; rfl
        rw [recordAPICall_of_none _ _ hget]
        simp only [List.count_append]
        have h0 : (runCapture evs).spawned.count k = 0 := by
          rw [ih, hM]; simp
        rw [h0, hk]
        simp
      | cons e0 rest =>
        have hget : alistGet (keyOf e) (runCapture evs).seenAPIs =
            some { method := e0.method, path := e0.path
                   headers := filterSensitiveHeaders e0.headers, body := e0.body
                   firstSeen := e0.time
                   lastSeen := ((e0 :: rest).getLast (List.cons_ne_nil e0 rest)).time
                   callCount := (e0 :: rest).length } := by
          rw [hk, runCapture_get, hM]
          simp [List.getLast?_eq_getLast]
        rw [recordAPICall_of_some _ _ _ hget]
        have h1 : (runCapture evs).spawned.count k = 1 := by
          rw [ih, hM]; simp
        simpa using h1
    · rw [if_neg hk, List.append_nil, ← ih]
      cases hget : alistGet (keyOf e) (runCapture evs).seenAPIs with
      | none =>
        rw [recordAPICall_of_none _ _ hget]
        simp only [List.count_append]
        have hz : List.count k [keyOf e] = 0 := by
          simp [List.count_cons, hk]
        rw [hz]
        rfl
      | some ex =>
        rw [recordAPICall_of_some _ _ _ hget]

/-- Claim C7: for every finite sequence of recorded target-matched
requests and every dedup key, the stored `callCount` equals the number of
occurrences of that key; registration is triggered exactly once per
occurring key; the stored record's identity fields come from the first
occurrence (repeats change only `lastSeen`/`callCount`); and no
registration exists before a key's first occurrence while one exists
right after it. -/
theorem claim_C7 :
    (∀ (evs : List CaptureEvent) (k : String),
      (alistGet k (runCapture evs).seenAPIs).map (fun c => c.callCount) =
        if matchingEvents evs k = [] then none else some (matchingEvents evs k).length)
    ∧ (∀ (evs : List CaptureEvent) (k : String),
      (runCapture evs).spawned.count k =
        if matchingEvents evs k = [] then 0 else 1)
    ∧ (∀ (evs : List CaptureEvent) (k : String) (e0 : CaptureEvent),
      (matchingEvents evs k).head? = some e0 →
        ∃ c, alistGet k (runCapture evs).seenAPIs = some c ∧
          c.method = e0.method ∧ c.path = e0.path ∧
          c.headers = filterSensitiveHeaders e0.headers ∧ c.body = e0.body ∧
          c.firstSeen = e0.time ∧ c.callCount = (matchingEvents evs k).length ∧
          ∀ eL, (matchingEvents evs k).getLast? = some eL → c.lastSeen = eL.time)
    ∧ (∀ (evsBefore : List CaptureEvent) (e : CaptureEvent),
      (∀ eO ∈ evsBefore, keyOf eO ≠ keyOf e) →
        keyOf e ∉ (runCapture evsBefore).spawned ∧
        keyOf e ∈ (runCapture (evsBefore ++ [e])).spawned) := by
  refine ⟨?_, runCapture_spawned, ?_, ?_⟩
  · intro evs k
    rw [runCapture_get]
    cases hM : matchingEvents evs k with
    | nil => rfl
    | cons e0 rest =>
      simp [List.getLast?_eq_getLast]
  · intro evs k e0 h0
    rw [runCapture_get]
    cases hM : matchingEvents evs k with
    | nil => rw [hM] at h0; simp at h0
    | cons e1 rest =>
      rw [hM] at h0
      simp only [List.head?_cons, Option.some.injEq] at h0
      subst h0
      refine ⟨{ method := e1.method, path := e1.path
                headers := filterSensitiveHeaders e1.headers, body := e1.body
                firstSeen := e1.time
                lastSeen := ((e1 :: rest).getLast (List.cons_ne_nil e1 rest)).time
                callCount := (e1 :: rest).length },
        ?_, rfl, rfl, rfl, rfl, rfl, rfl, ?_⟩
      · simp [List.getLast?_eq_getLast]
      · intro eL hL
        rw [List.getLast?_eq_getLast _ (List.cons_ne_nil e1 rest)] at hL
        simp only [Option.some.injEq] at hL
        rw [← hL]
  · intro evsBefore e h
    have hM : matchingEvents evsBefore (keyOf e) = [] := by
      rw [matchingEvents, List.filter_eq_nil_iff]
      intro a ha
      simpa using h a ha
    constructor
    · rw [← List.count_eq_zero]
      rw [runCapture_spawned, hM]
      simp
    · have h1 : (runCapture (evsBefore ++ [e])).spawned.count (keyOf e) = 1 := by
        rw [runCapture_spawned, matchingEvents_concat]
        rw [hM]
        simp
      exact List.count_pos_iff.mp (by rw [h1]; exact Nat.one_pos)

/-- Witness for claim C7 on the three concrete capture events: the
`GET /users` key is counted twice, spawns one registration, and the
registration appears exactly at its first occurrence. -/
theorem claim_C7_witness :
    (alistGet "GET_/users" (runCapture [ev1, ev2, ev3]).seenAPIs).map
        (fun c => c.callCount) = some 2 ∧
    (runCapture [ev1, ev2, ev3]).spawned.count "GET_/users" = 1 ∧
    keyOf ev1 ∉ (runCapture [ev2]).spawned ∧
    keyOf ev1 ∈ (runCapture [ev2, ev1]).spawned := by
  refine ⟨?_, ?_, ?_, ?_⟩
  · rw [claim_C7.1 [ev1, ev2, ev3] "GET_/users"]
    decide
  · rw [claim_C7.2.1 [ev1, ev2, ev3] "GET_/users"]
    decide
  · exact (claim_C7.2.2.2 [ev2] ev1 (by decide)).1
  · exact (claim_C7.2.2.2 [ev2] ev1 (by decide)).2

end Mcpify
